import Mathlib

/-!
# Verification of the Limdy pooled memory allocator

Shallow embedding of `src/utils/memory_pool.c`, `include/utils/memory_pool.h`
and `include/utils/rbtree/rbtree.c` (the pool-based allocator, its slab
front-end and the red-black pool index), together with proofs and
counterexamples for the stated properties of the allocator.

Modelling conventions:
* machine addresses and `size_t` values are `Nat`; `size_t` wrap-around is
  taken modulo `2^64` (`W`) at the update sites where the C code can wrap;
* a pool's address-ordered intrusive block list (`pool->free_list` chained
  through `next`/`prev`) is a `List MemoryBlock`; the `prev`/`next` pointers
  of the C struct are the adjacency of that list;
* `NULL` pointers are the address `0`;
* fatal conditions (magic mismatch in `verify_block_magic`, the
  `assert(block->in_use)` in the free paths, a NULL dereference) are
  `Except.error`; recoverable errors (`LOG_ERROR` followed by a normal
  return) are modelled as an `Event.errorLog` appended to the global event
  list, together with the C function's ordinary return value;
* `memcpy` is recorded as an `Event.copy dst src len` observation;
* struct sizes follow the LP64 ABI the code targets:
  `sizeof(struct MemoryBlock)` = 4 (`uint32_t magic`) + 4 (padding)
  + 8 (`size_t size`) + 8 (`size_t in_use`) + 8 (`next`) + 8 (`prev`) = 40.
-/

/-- `2^64`, the modulus of `size_t` arithmetic. -/
def W : Nat := 18446744073709551616

/-- `LIMDY_MEMORY_ALIGNMENT` (memory_pool.h line 52). -/
def LIMDY_MEMORY_ALIGNMENT : Nat := 16

/-- `LIMDY_SLAB_SIZES` (memory_pool.h line 57). -/
def LIMDY_SLAB_SIZES : Nat := 8

/-- `LIMDY_SLAB_MIN_SIZE` (memory_pool.h line 62). -/
def LIMDY_SLAB_MIN_SIZE : Nat := 16

/-- `LIMDY_SLAB_MAX_SIZE` (memory_pool.h line 67). -/
def LIMDY_SLAB_MAX_SIZE : Nat := 128

/-- `MEMORY_BLOCK_MAGIC` (memory_pool.h line 27). -/
def MEMORY_BLOCK_MAGIC : Nat := 0xDEADBEEF

/-- `sizeof(struct MemoryBlock)` under LP64 (memory_pool.h lines 99-107):
`uint32_t magic` (4) + padding (4) + `size_t size` (8) + `size_t in_use` (8)
+ `struct MemoryBlock *next` (8) + `struct MemoryBlock *prev` (8) = 40.
The flexible array member `uintptr_t data[]` contributes no size; the payload
starts at this offset from the block header. -/
def HDR : Nat := 40

/-- `MIN_BLOCK_SIZE` = `sizeof(struct MemoryBlock)` (memory_pool.h line 26). -/
def MIN_BLOCK_SIZE : Nat := HDR

/-- `ALIGN_SIZE(size, align)` (memory_pool.h line 25):
`((size + align - 1) & ~(align - 1))`.  For a power-of-two `align` (it is
always 16 in the source) this is rounding `size + align - 1` down to a
multiple of `align`. -/
def ALIGN_SIZE (size align : Nat) : Nat :=
  (size + align - 1) - (size + align - 1) % align

/-- `size_t` subtraction `a - b` with unsigned wrap-around. -/
def subW (a b : Nat) : Nat := (a + (W - b % W)) % W

/-- A block header in a pool arena (memory_pool.h lines 99-107).  The
`next`/`prev` pointers are represented by the position of the block in the
pool's address-ordered list. -/
structure MemoryBlock where
  magic : Nat
  size : Nat
  in_use : Bool
  deriving Repr, DecidableEq

/-- Error codes of the allocator (memory_pool.h lines 264-294), plus the
fatal conditions: `corruption` for `verify_block_magic` failure
(`error_fatal` exits the process), `assertFail` for the `assert(block->in_use)`
in the free paths, and `nullDeref` for a NULL-pointer dereference
(undefined behaviour in the C source). -/
inductive PoolError where
  | allocFailed
  | invalidFree
  | invalidPool
  | poolFull
  | corruption
  | assertFail
  | nullDeref
  deriving Repr, DecidableEq

/-- Whether an error terminates the process (spec §4.1/§7: corruption-class
errors are fatal; capacity and misuse errors are logged and returned). -/
def PoolError.isFatal : PoolError → Bool
  | .corruption => true
  | .assertFail => true
  | .nullDeref => true
  | _ => false

/-- Observable effects of an allocator call: an error record emitted through
`LOG_ERROR`, or a `memcpy(dst, src, len)`. -/
inductive Event where
  | errorLog (code : PoolError)
  | copy (dst src len : Nat)
  deriving Repr, DecidableEq

/-- A pool arena (memory_pool.h lines 109-117).  `base` is the address of
`pool->memory`; `blocks` is the address-ordered block list headed by
`pool->free_list`. -/
structure LimdyMemoryPool where
  base : Nat
  total_size : Nat
  used_size : Nat
  blocks : List MemoryBlock
  deriving Repr, DecidableEq

instance : Inhabited LimdyMemoryPool := ⟨⟨0, 0, 0, []⟩⟩

/-- `create_pool` (memory_pool.c lines 53-97): one free block spanning
`pool_size - sizeof(struct MemoryBlock)`; `used_size = 0`.  `base` is the
address returned by `ALIGNED_ALLOC(LIMDY_MEMORY_ALIGNMENT, pool_size)`
(a model parameter, always a multiple of 16). -/
def create_pool (base pool_size : Nat) : LimdyMemoryPool :=
  { base := base
    total_size := pool_size
    used_size := 0
    blocks := [{ magic := MEMORY_BLOCK_MAGIC, size := pool_size - HDR, in_use := false }] }

/-- Byte offset of the `i`-th block header from the pool base: every earlier
block occupies `sizeof(header) + payload` bytes. -/
def blockOffset : List MemoryBlock → Nat → Nat
  | _, 0 => 0
  | [], _ + 1 => 0
  | b :: rest, i + 1 => HDR + b.size + blockOffset rest i

/-- Address of the payload (`block->data`) of the `i`-th block of a pool. -/
def payloadAddr (pool : LimdyMemoryPool) (i : Nat) : Nat :=
  pool.base + blockOffset pool.blocks i + HDR

/-- Resolve a payload pointer to the index of its block: walking the list,
the block whose `data` member sits at address `target`.  (The C code casts
`ptr - sizeof(struct MemoryBlock)` to a header directly; a pointer that is
not a block payload address reads a garbage header, which the magic check
then reports as corruption.) -/
def blockIndexGo (addr target : Nat) : List MemoryBlock → Option Nat
  | [] => none
  | b :: rest =>
    if addr + HDR = target then some 0
    else (blockIndexGo (addr + HDR + b.size) target rest).map (· + 1)

/-- Index of the block whose payload address is `p`, if any. -/
def blockIndexOf (pool : LimdyMemoryPool) (p : Nat) : Option Nat :=
  blockIndexGo pool.base p pool.blocks

/-- First-fit walk of `allocate_from_pool` (memory_pool.c lines 199-241) on
the block list.  Returns `none` when no free block is large enough
(`LIMDY_MEMORY_POOL_ERROR_ALLOC_FAILED`), or the index of the served block,
its final `block->size` (payload accounted to `used_size`), and the new list.
`verify_block_magic` runs on every visited block (fatal on mismatch). -/
def allocBlocks (size : Nat) : List MemoryBlock → Except PoolError (Option (Nat × Nat × List MemoryBlock))
  | [] => .ok none
  | b :: rest =>
    if b.magic ≠ MEMORY_BLOCK_MAGIC then .error .corruption
    else if b.in_use = false ∧ size ≤ b.size then
      if size + MIN_BLOCK_SIZE ≤ b.size then
        .ok (some (0, size,
          { b with size := size, in_use := true } ::
          { magic := MEMORY_BLOCK_MAGIC, size := b.size - size - HDR, in_use := false } :: rest))
      else
        .ok (some (0, b.size, { b with in_use := true } :: rest))
    else
      match allocBlocks size rest with
      | .error e => .error e
      | .ok none => .ok none
      | .ok (some (i, ssz, l)) => .ok (some (i + 1, ssz, b :: l))

/-- `allocate_from_pool` (memory_pool.c lines 199-241): serve `size` bytes by
first fit; on success `used_size += block->size + sizeof(header)` and the
returned pointer is `block->data`. -/
def allocate_from_pool (pool : LimdyMemoryPool) (size : Nat) :
    Except PoolError (Option (Nat × LimdyMemoryPool)) :=
  match allocBlocks size pool.blocks with
  | .error e => .error e
  | .ok none => .ok none
  | .ok (some (i, ssz, bs)) =>
    .ok (some (payloadAddr pool i,
      { pool with blocks := bs, used_size := (pool.used_size + ssz + HDR) % W }))

/-- Coalesce a just-freed (or just-merged) block with its successor when the
successor is free (memory_pool.c lines 351-360 / 878-887). -/
def mergeRight (b : MemoryBlock) : List MemoryBlock → List MemoryBlock
  | [] => [b]
  | n :: rest =>
    if n.in_use = false then { b with size := b.size + HDR + n.size } :: rest
    else b :: n :: rest

/-- Block-list effect of freeing the block at index `i` (memory_pool.c lines
336-360): clear `in_use`, merge with the immediate predecessor if it is free,
then with the immediate successor if it is free. -/
def freeBlocks : List MemoryBlock → Nat → List MemoryBlock
  | [], _ => []
  | b :: rest, 0 => mergeRight { b with in_use := false } rest
  | b :: n :: rest, 1 =>
    if b.in_use = false then
      mergeRight { b with size := b.size + HDR + n.size } rest
    else
      b :: mergeRight { n with in_use := false } rest
  | b :: rest, Nat.succ i => b :: freeBlocks rest i

/-- Block-list effect of the in-place extension path of
`limdy_memory_pool_realloc` / `realloc_from_pool` (memory_pool.c lines
429-456 / 763-790): the block at `i` absorbs its free successor; if the
leftover `total_size - new_size` is at least `MIN_BLOCK_SIZE` a trailing free
remainder is split off, otherwise the whole successor is consumed. -/
def extendBlocks : List MemoryBlock → Nat → Nat → List MemoryBlock
  | b :: n :: rest, 0, ns =>
    if MIN_BLOCK_SIZE ≤ b.size + HDR + n.size - ns then
      { b with size := ns } ::
      { magic := MEMORY_BLOCK_MAGIC, size := b.size + HDR + n.size - ns - HDR, in_use := false } :: rest
    else
      { b with size := b.size + HDR + n.size } :: rest
  | b :: rest, Nat.succ i, ns => b :: extendBlocks rest i ns
  | l, _, _ => l

/-- One fuel-indexed pass of the `limdy_memory_pool_defragment` sweep
(memory_pool.c lines 485-502): while the current block and its successor are
both free, merge them into the current block; otherwise advance. -/
def defragLoop : Nat → List MemoryBlock → List MemoryBlock
  | 0, l => l
  | _ + 1, [] => []
  | _ + 1, [b] => [b]
  | fuel + 1, b :: n :: rest =>
    if b.in_use = false ∧ n.in_use = false then
      defragLoop fuel ({ b with size := b.size + HDR + n.size } :: rest)
    else
      b :: defragLoop fuel (n :: rest)

/-- `limdy_memory_pool_defragment` (memory_pool.c lines 475-506); the list
has at most `length` merge/advance steps. -/
def limdy_memory_pool_defragment (pool : LimdyMemoryPool) : LimdyMemoryPool :=
  { pool with blocks := defragLoop pool.blocks.length pool.blocks }

/-- The coalescing invariant (spec §8 invariant 2): no two address-adjacent
blocks of the list are both free, i.e. of each adjacent pair at least one is
in use. -/
def noAdjFree : List MemoryBlock → Bool
  | b :: n :: rest => (b.in_use || n.in_use) && noAdjFree (n :: rest)
  | _ => true

/-- `Σ (sizeof(header) + payload)` over the blocks with `in_use` set
(spec §8 invariant 1, the right-hand side of the `used_size` equation). -/
def usedSum (bs : List MemoryBlock) : Nat :=
  (bs.filter (·.in_use)).foldr (fun b acc => acc + HDR + b.size) 0

/-- A node payload of the pool index: the C node holds a `LimdyMemoryPool *`;
`pid` identifies the pool (its slot in the small-pool array) and
`total_size` is the dereferenced `pool->total_size` the tree compares on. -/
structure PoolRef where
  pid : Nat
  total_size : Nat
  deriving Repr, DecidableEq

/-- Shape of the pool index `pool_rbtree` (rbtree.h lines 33-48), with the
pool reference at each node.  Node colors play no role in the search
functions embedded here and are omitted from this functional view; the
pointer-level embedding used for the rebalancing code is `RBHeap` below. -/
inductive PoolTree where
  | nil
  | node (left : PoolTree) (ref : PoolRef) (right : PoolTree)
  deriving Repr, DecidableEq

/-- Membership of a pool reference in the index. -/
def PoolTree.Mem (q : PoolRef) : PoolTree → Prop
  | .nil => False
  | .node l ref r => q = ref ∨ PoolTree.Mem q l ∨ PoolTree.Mem q r

instance : Membership PoolRef PoolTree := ⟨fun t q => PoolTree.Mem q t⟩

/-- Whether every pool reference of the tree satisfies `f`. -/
def PoolTree.allRefs (f : PoolRef → Bool) : PoolTree → Bool
  | .nil => true
  | .node l ref r => f ref && PoolTree.allRefs f l && PoolTree.allRefs f r

/-- The search-tree order maintained by `limdy_rbtree_insert` (rbtree.c lines
271-299, `<` to the left, `≥` to the right, so duplicates sit right):
everything in the left subtree is `≤` the node, everything in the right
subtree is `≥` the node, recursively. -/
def PoolTree.ordered : PoolTree → Bool
  | .nil => true
  | .node l ref r =>
    PoolTree.allRefs (fun q => decide (q.total_size ≤ ref.total_size)) l &&
    PoolTree.allRefs (fun q => decide (ref.total_size ≤ q.total_size)) r &&
    PoolTree.ordered l && PoolTree.ordered r

/-- `limdy_rbtree_find_best_fit` (rbtree.c lines 384-405): descend left when
`current->pool->total_size >= size` remembering `current` as the running
best, descend right otherwise; the deepest remembered node wins. -/
def limdy_rbtree_find_best_fit : PoolTree → Nat → Option PoolRef
  | .nil, _ => none
  | .node l ref r, size =>
    if size ≤ ref.total_size then
      match limdy_rbtree_find_best_fit l size with
      | some q => some q
      | none => some ref
    else
      limdy_rbtree_find_best_fit r size

/-- The slab front-end state (memory_pool.h lines 91-97).  `slabs[i]` in the
C code is the head pointer of class `i`'s LIFO free list, threaded through
the first machine word of each free object; here each class's free list is
the list of free object addresses, whose head corresponds to `slabs[i]`. -/
structure LimdySlabAllocator where
  free_lists : List (List Nat)
  slab_sizes : List Nat
  free_objects : List Nat
  deriving Repr, DecidableEq

/-- `init_slab_allocator` (memory_pool.c lines 513-522):
`slab_sizes[i] = LIMDY_SLAB_MIN_SIZE << i`, empty free lists. -/
def init_slab_allocator : LimdySlabAllocator :=
  { free_lists := List.replicate LIMDY_SLAB_SIZES []
    slab_sizes := (List.range LIMDY_SLAB_SIZES).map (fun i => LIMDY_SLAB_MIN_SIZE * 2 ^ i)
    free_objects := List.replicate LIMDY_SLAB_SIZES 0 }

/-- The slab-class scan `while (slab_sizes[i] < size && i < LIMDY_SLAB_SIZES) i++`
(memory_pool.c lines 537-546 / 593-601): first class whose stride is ≥ `size`. -/
def slabIndexOf (sizes : List Nat) (size : Nat) : Option Nat :=
  match sizes with
  | [] => none
  | s :: rest =>
    if size ≤ s then some 0 else (slabIndexOf rest size).map (· + 1)

/-- Global allocator state (memory_pool.h lines 119-124): the small-pool
array, the designated large pool, the capacity-keyed pool index, the slab
cache and the live configuration.  `sys_next` models the system allocator's
next fresh address (`ALIGNED_ALLOC` for new slabs); `events` collects the
observable `LOG_ERROR`/`memcpy` effects. -/
structure GlobalState where
  small_pools : List LimdyMemoryPool
  large_pool : LimdyMemoryPool
  pool_rbtree : PoolTree
  slab : LimdySlabAllocator
  slab_objects_per_slab : Nat
  sys_next : Nat
  events : List Event
  deriving Repr, DecidableEq

/-- Append a `LOG_ERROR` record to the event list. -/
def logEvent (g : GlobalState) (code : PoolError) : GlobalState :=
  { g with events := g.events ++ [Event.errorLog code] }

/-- Identity of a pool inside the global state: a slot of the small-pool
array, or the designated large pool. -/
inductive PoolPtr where
  | small (i : Nat)
  | large
  deriving Repr, DecidableEq

/-- Dereference a pool identity. -/
def getPoolP (g : GlobalState) : PoolPtr → LimdyMemoryPool
  | .small i => (g.small_pools.get? i).getD default
  | .large => g.large_pool

/-- Store back an updated pool. -/
def setPoolP (g : GlobalState) : PoolPtr → LimdyMemoryPool → GlobalState
  | .small i, pool => { g with small_pools := g.small_pools.set i pool }
  | .large, pool => { g with large_pool := pool }

/-- `limdy_memory_pool_contains` (memory_pool.c lines 899-912): a pure
address-range test, false for NULL arguments. -/
def limdy_memory_pool_contains (pool : LimdyMemoryPool) (p : Nat) : Bool :=
  if p = 0 then false
  else decide (pool.base ≤ p) && decide (p < pool.base + pool.total_size)

/-- `find_pool` (memory_pool.c lines 282-296): look the *pointer value* up in
the capacity-keyed best-fit tree (the C code passes `(size_t)ptr` as the
`size` argument), keep that pool if it contains the pointer, otherwise fall
back to the large pool, otherwise fail. -/
def find_pool (g : GlobalState) (p : Nat) : Option PoolPtr :=
  match limdy_rbtree_find_best_fit g.pool_rbtree p with
  | some ref =>
    if limdy_memory_pool_contains (getPoolP g (.small ref.pid)) p then some (.small ref.pid)
    else if limdy_memory_pool_contains g.large_pool p then some .large
    else none
  | none =>
    if limdy_memory_pool_contains g.large_pool p then some .large else none

/-- Round an address up to a multiple of `align` (model of the system
allocator's aligned allocation). -/
def alignUp (addr align : Nat) : Nat :=
  addr + (align - addr % align) % align

/-- `alignof(max_align_t)` (`LIMDY_MAX_ALIGN`, limdy_alignment.h) on LP64. -/
def LIMDY_MAX_ALIGN : Nat := 16

/-- `slab_alloc` (memory_pool.c lines 530-578): reject sizes above
`LIMDY_SLAB_MAX_SIZE`, locate the class, refill it from a fresh system slab
of `stride * slab_objects_per_slab` bytes when its free list is empty
(objects threaded in address order, the last one pointing at the old head),
then pop the head of the free list. -/
def slab_alloc (g : GlobalState) (size : Nat) : Option Nat × GlobalState :=
  if LIMDY_SLAB_MAX_SIZE < size then (none, g)
  else
    match slabIndexOf g.slab.slab_sizes size with
    | none => (none, g)
    | some idx =>
      let stride := (g.slab.slab_sizes.get? idx).getD 0
      let curList := (g.slab.free_lists.get? idx).getD []
      let refill := (g.slab.free_objects.get? idx).getD 0 = 0
      let base := alignUp g.sys_next LIMDY_MAX_ALIGN
      let newObjs := (List.range g.slab_objects_per_slab).map (fun k => base + k * stride)
      let fullList := if refill then newObjs ++ curList else curList
      let count := if refill then g.slab_objects_per_slab else (g.slab.free_objects.get? idx).getD 0
      match fullList with
      | [] => (none, g)
      | top :: restList =>
        (some top,
          { g with
            sys_next := if refill then base + stride * g.slab_objects_per_slab else g.sys_next
            slab := { g.slab with
              free_lists := g.slab.free_lists.set idx restList
              free_objects := g.slab.free_objects.set idx (count - 1) } })

/-- The slab-range scan of `limdy_memory_pool_free` (memory_pool.c lines
312-321): class `i` claims `ptr` when its free-list head `slabs[i]` is
non-NULL and `slabs[i] <= ptr < slabs[i] + slab_sizes[i] * slab_objects_per_slab`. -/
def slabHit (g : GlobalState) (p : Nat) : Option Nat :=
  (List.range LIMDY_SLAB_SIZES).find? (fun i =>
    match (g.slab.free_lists.get? i).getD [] with
    | [] => false
    | h :: _ =>
      decide (h ≤ p) &&
      decide (p < h + ((g.slab.slab_sizes.get? i).getD 0) * g.slab_objects_per_slab))

/-- `slab_free` (memory_pool.c lines 586-611): push the object back on the
free list of the class determined from `size`. -/
def slab_free (g : GlobalState) (p size : Nat) : GlobalState :=
  if LIMDY_SLAB_MAX_SIZE < size then g
  else
    match slabIndexOf g.slab.slab_sizes size with
    | none => g
    | some idx =>
      { g with slab := { g.slab with
          free_lists := g.slab.free_lists.set idx (p :: (g.slab.free_lists.get? idx).getD [])
          free_objects := g.slab.free_objects.set idx ((g.slab.free_objects.get? idx).getD 0 + 1) } }

/-- Allocation from the designated large pool, the fallback of
`limdy_memory_pool_alloc` (memory_pool.c line 273); a failed walk logs
`LIMDY_MEMORY_POOL_ERROR_ALLOC_FAILED` (line 239). -/
def allocLarge (g : GlobalState) (size : Nat) : Except PoolError (Option Nat × GlobalState) :=
  match allocate_from_pool g.large_pool size with
  | .error e => .error e
  | .ok (some (addr, pool)) => .ok (some addr, { g with large_pool := pool })
  | .ok none => .ok (none, logEvent g .allocFailed)

/-- `limdy_memory_pool_alloc` (memory_pool.c lines 249-274): align the size,
try the slab front-end for sizes up to `LIMDY_SLAB_MAX_SIZE`, then the
best-fit pool from the index, then the large pool. -/
def limdy_memory_pool_alloc (g : GlobalState) (size0 : Nat) :
    Except PoolError (Option Nat × GlobalState) :=
  let size := ALIGN_SIZE size0 LIMDY_MEMORY_ALIGNMENT
  let slabTry : Option Nat × GlobalState :=
    if size ≤ LIMDY_SLAB_MAX_SIZE then slab_alloc g size else (none, g)
  match slabTry with
  | (some p, g1) => .ok (some p, g1)
  | (none, g1) =>
    match limdy_rbtree_find_best_fit g1.pool_rbtree size with
    | some ref =>
      match allocate_from_pool (getPoolP g1 (.small ref.pid)) size with
      | .error e => .error e
      | .ok (some (addr, pool)) => .ok (some addr, setPoolP g1 (.small ref.pid) pool)
      | .ok none => allocLarge (logEvent g1 .allocFailed) size
    | none => allocLarge g1 size

/-- `limdy_memory_pool_free` (memory_pool.c lines 303-363): NULL is a no-op;
a pointer inside a slab class range goes back to the slab; otherwise
`find_pool` locates the pool (failure logs `INVALID_FREE` and returns); the
block's magic is verified (fatal on mismatch), `assert(block->in_use)` fires
on a double free, then the block is released and coalesced and
`used_size -= block->size + sizeof(header)`. -/
def limdy_memory_pool_free (g : GlobalState) (p : Nat) : Except PoolError GlobalState :=
  if p = 0 then .ok g
  else
    match slabHit g p with
    | some idx => .ok (slab_free g p ((g.slab.slab_sizes.get? idx).getD 0))
    | none =>
      match find_pool g p with
      | none => .ok (logEvent g .invalidFree)
      | some pp =>
        let pool := getPoolP g pp
        match blockIndexOf pool p with
        | none => .error .corruption
        | some i =>
          match pool.blocks.get? i with
          | none => .error .corruption
          | some b =>
            if b.magic ≠ MEMORY_BLOCK_MAGIC then .error .corruption
            else if b.in_use = false then .error .assertFail
            else .ok (setPoolP g pp
              { pool with
                blocks := freeBlocks pool.blocks i
                used_size := subW pool.used_size (b.size + HDR) })

/-- `limdy_memory_pool_get_stats` (memory_pool.c lines 619-636): sum
`total_size` and `used_size` over the small pools and the large pool. -/
def limdy_memory_pool_get_stats (g : GlobalState) : Nat × Nat :=
  (((g.small_pools.map (·.total_size)).sum + g.large_pool.total_size) % W,
   ((g.small_pools.map (·.used_size)).sum + g.large_pool.used_size) % W)

/-- In-place extension of `limdy_memory_pool_realloc` / `realloc_from_pool`
(memory_pool.c lines 429-460 / 763-794) at block `i`: the block list changes
by `extendBlocks`, and the accounting update is the source's
`pool->used_size += new_size - block->size`, *evaluated after* `block->size`
has been rewritten, with `size_t` wrap-around. -/
def reallocExtendPool (pool : LimdyMemoryPool) (i ns : Nat) : LimdyMemoryPool :=
  let bs := extendBlocks pool.blocks i ns
  let fin := ((bs.get? i).map (·.size)).getD 0
  { pool with blocks := bs, used_size := (pool.used_size + subW ns fin) % W }

/-- `realloc_allocate_and_copy` (memory_pool.c lines 373-386): allocate
`new_size` bytes from the global allocator, `memcpy` *`block->size`* bytes
(the old payload size, read from the old header) to the new location, free
the old pointer. -/
def realloc_allocate_and_copy (g : GlobalState) (p oldSize ns : Nat) :
    Except PoolError (Option Nat × GlobalState) :=
  match limdy_memory_pool_alloc g ns with
  | .error e => .error e
  | .ok (none, g1) => .ok (none, g1)
  | .ok (some np, g1) =>
    let g2 := { g1 with events := g1.events ++ [Event.copy np p oldSize] }
    match limdy_memory_pool_free g2 p with
    | .error e => .error e
    | .ok g3 => .ok (some np, g3)

/-- `limdy_memory_pool_realloc` (memory_pool.c lines 395-467): NULL pointer
behaves as `alloc`, zero size as `free`; `find_pool` failure logs
`INVALID_FREE` and returns NULL; a block with valid magic but cleared
`in_use` logs `INVALID_FREE` and returns NULL; otherwise try the in-place
extension (`new_size > block->size`, free successor, combined space large
enough) and fall back to allocate-and-copy. -/
def limdy_memory_pool_realloc (g : GlobalState) (p new_size : Nat) :
    Except PoolError (Option Nat × GlobalState) :=
  if p = 0 then limdy_memory_pool_alloc g new_size
  else if new_size = 0 then
    match limdy_memory_pool_free g p with
    | .error e => .error e
    | .ok g1 => .ok (none, g1)
  else
    match find_pool g p with
    | none => .ok (none, logEvent g .invalidFree)
    | some pp =>
      let pool := getPoolP g pp
      match blockIndexOf pool p with
      | none => .error .corruption
      | some i =>
        match pool.blocks.get? i with
        | none => .error .corruption
        | some b =>
          if b.magic ≠ MEMORY_BLOCK_MAGIC then .error .corruption
          else if b.in_use = false then .ok (none, logEvent g .invalidFree)
          else
            let ns := ALIGN_SIZE new_size LIMDY_MEMORY_ALIGNMENT
            match pool.blocks.get? (i + 1) with
            | some nb =>
              if b.size < ns ∧ nb.in_use = false ∧ ns ≤ b.size + HDR + nb.size then
                .ok (some p, setPoolP g pp (reallocExtendPool pool i ns))
              else realloc_allocate_and_copy g p b.size ns
            | none => realloc_allocate_and_copy g p b.size ns

/-- `limdy_memory_pool_alloc_from` (memory_pool.c lines 729-737): align and
serve directly from the given pool. -/
def limdy_memory_pool_alloc_from (pool : LimdyMemoryPool) (size : Nat) :
    Except PoolError (Option (Nat × LimdyMemoryPool)) :=
  allocate_from_pool pool (ALIGN_SIZE size LIMDY_MEMORY_ALIGNMENT)

/-- `realloc_from_pool` together with its wrapper
`limdy_memory_pool_realloc_from` (memory_pool.c lines 747-801 and 811-837),
for a pool identified inside the global state (the fresh-allocation path
calls the global `limdy_memory_pool_alloc`/`free`): same magic and `in_use`
checks, the same in-place extension, the same allocate-and-copy fallback. -/
def limdy_memory_pool_realloc_from (g : GlobalState) (pp : PoolPtr) (p new_size : Nat) :
    Except PoolError (Option Nat × GlobalState) :=
  if p = 0 then
    match allocate_from_pool (getPoolP g pp) (ALIGN_SIZE new_size LIMDY_MEMORY_ALIGNMENT) with
    | .error e => .error e
    | .ok (some (addr, pool)) => .ok (some addr, setPoolP g pp pool)
    | .ok none => .ok (none, logEvent g .allocFailed)
  else if new_size = 0 then
    match limdy_memory_pool_free g p with
    | .error e => .error e
    | .ok g1 => .ok (none, g1)
  else if limdy_memory_pool_contains (getPoolP g pp) p = false then
    .ok (none, logEvent g .invalidFree)
  else
    let pool := getPoolP g pp
    match blockIndexOf pool p with
    | none => .error .corruption
    | some i =>
      match pool.blocks.get? i with
      | none => .error .corruption
      | some b =>
        if b.magic ≠ MEMORY_BLOCK_MAGIC then .error .corruption
        else if b.in_use = false then .ok (none, logEvent g .invalidFree)
        else
          let ns := ALIGN_SIZE new_size LIMDY_MEMORY_ALIGNMENT
          match pool.blocks.get? (i + 1) with
          | some nb =>
            if b.size < ns ∧ nb.in_use = false ∧ ns ≤ b.size + HDR + nb.size then
              .ok (some p, setPoolP g pp (reallocExtendPool pool i ns))
            else realloc_allocate_and_copy g p b.size ns
          | none => realloc_allocate_and_copy g p b.size ns

/-- Node colors (rbtree.h lines 24-28). -/
inductive RBColor where
  | black
  | red
  deriving Repr, DecidableEq

/-- A `LimdyRBNode` (rbtree.h lines 33-40): the referenced pool is identified
by its `total_size` key (the only field of the pool the tree code reads);
`parent`, `left`, `right` are node addresses, `none` being `NULL`. -/
structure RBNode where
  key : Nat
  color : RBColor
  parent : Option Nat
  left : Option Nat
  right : Option Nat
  deriving Repr, DecidableEq

/-- The node store: allocated tree nodes addressed by identifiers. -/
abbrev RBHeap := List (Nat × RBNode)

/-- Read the node at address `i`. -/
def hget (h : RBHeap) (i : Nat) : Option RBNode :=
  (h.find? (fun q => q.1 == i)).map (·.2)

/-- Overwrite the node at address `i`. -/
def hset (h : RBHeap) (i : Nat) (n : RBNode) : RBHeap :=
  h.map (fun q => if q.1 == i then (i, n) else q)

/-- Release the node at address `i` (`limdy_memory_pool_free(z)`,
rbtree.c line 378). -/
def hrem (h : RBHeap) (i : Nat) : RBHeap :=
  h.filter (fun q => q.1 != i)

/-- Dereference a node pointer: `NULL` is a NULL-pointer dereference
(undefined behaviour in the C source), a dangling address is a read of freed
memory. -/
def derefN (h : RBHeap) : Option Nat → Except PoolError (Nat × RBNode)
  | none => .error .nullDeref
  | some i =>
    match hget h i with
    | none => .error .corruption
    | some n => .ok (i, n)

/-- Recolor the node at address `i`. -/
def setColor (h : RBHeap) (i : Nat) (c : RBColor) : Except PoolError RBHeap := do
  let (_, n) ← derefN h (some i)
  pure (hset h i { n with color := c })

/-- `left_rotate` (rbtree.c lines 29-52). -/
def left_rotate (h0 : RBHeap) (root : Option Nat) (xi : Nat) :
    Except PoolError (RBHeap × Option Nat) := do
  let (_, x0) ← derefN h0 (some xi)
  let (yi, y0) ← derefN h0 x0.right
  let h := hset h0 xi { x0 with right := y0.left }
  let h ← (match y0.left with
    | some li => do
      let (_, ln) ← derefN h (some li)
      pure (hset h li { ln with parent := some xi })
    | none => pure h)
  let (_, y1) ← derefN h (some yi)
  let h := hset h yi { y1 with parent := x0.parent }
  let (h, root) ← (match x0.parent with
    | none => pure (h, some yi)
    | some pi => do
      let (_, pn) ← derefN h (some pi)
      if pn.left = some xi then pure (hset h pi { pn with left := some yi }, root)
      else pure (hset h pi { pn with right := some yi }, root))
  let (_, y2) ← derefN h (some yi)
  let h := hset h yi { y2 with left := some xi }
  let (_, x1) ← derefN h (some xi)
  pure (hset h xi { x1 with parent := some yi }, root)

/-- `right_rotate` (rbtree.c lines 54-77). -/
def right_rotate (h0 : RBHeap) (root : Option Nat) (yi : Nat) :
    Except PoolError (RBHeap × Option Nat) := do
  let (_, y0) ← derefN h0 (some yi)
  let (xi, x0) ← derefN h0 y0.left
  let h := hset h0 yi { y0 with left := x0.right }
  let h ← (match x0.right with
    | some ri => do
      let (_, rn) ← derefN h (some ri)
      pure (hset h ri { rn with parent := some yi })
    | none => pure h)
  let (_, x1) ← derefN h (some xi)
  let h := hset h xi { x1 with parent := y0.parent }
  let (h, root) ← (match y0.parent with
    | none => pure (h, some xi)
    | some pi => do
      let (_, pn) ← derefN h (some pi)
      if pn.right = some yi then pure (hset h pi { pn with right := some xi }, root)
      else pure (hset h pi { pn with left := some xi }, root))
  let (_, x2) ← derefN h (some xi)
  let h := hset h xi { x2 with right := some yi }
  let (_, y1) ← derefN h (some yi)
  pure (hset h yi { y1 with parent := some xi }, root)

/-- `transplant` (rbtree.c lines 131-149). -/
def transplant (h : RBHeap) (root : Option Nat) (ui : Nat) (v : Option Nat) :
    Except PoolError (RBHeap × Option Nat) := do
  let (_, u) ← derefN h (some ui)
  let (h, root) ← (match u.parent with
    | none => pure (h, v)
    | some pi => do
      let (_, pn) ← derefN h (some pi)
      if pn.left = some ui then pure (hset h pi { pn with left := v }, root)
      else pure (hset h pi { pn with right := v }, root))
  match v with
  | none => pure (h, root)
  | some vi => do
    let (_, vn) ← derefN h (some vi)
    pure (hset h vi { vn with parent := u.parent }, root)

/-- `tree_minimum` (rbtree.c lines 151-158), fuel-indexed. -/
def tree_minimum (h : RBHeap) : Nat → Nat → Except PoolError Nat
  | 0, _ => .error .corruption
  | fuel + 1, i => do
    let (_, n) ← derefN h (some i)
    match n.left with
    | none => pure i
    | some li => tree_minimum h fuel li

/-- `w->child == NULL || w->child->color == BLACK` (no dereference for NULL). -/
def nilOrBlack (h : RBHeap) : Option Nat → Except PoolError Bool
  | none => pure true
  | some i => do
    let (_, n) ← derefN h (some i)
    pure (n.color = RBColor.black)

/-- `delete_fixup` (rbtree.c lines 160-249), fuel-indexed.  Each iteration
re-reads every pointer from the current heap; reading `parent->left` in the
loop head dereferences `parent`. -/
def delete_fixup : Nat → RBHeap → Option Nat → Option Nat → Option Nat →
    Except PoolError (RBHeap × Option Nat)
  | 0, _, _, _, _ => .error .corruption
  | fuel + 1, h, root, x, parent => do
    let cont ← (do
      if x = root then pure false
      else
        match x with
        | none => pure true
        | some xi => do
          let (_, xn) ← derefN h (some xi)
          pure (xn.color = RBColor.black))
    if cont = false then
      match x with
      | none => pure (h, root)
      | some xi => do
        let h ← setColor h xi .black
        pure (h, root)
    else do
      let (pi, pn) ← derefN h parent
      if pn.left = x then do
        let (wi, wn) ← derefN h pn.right
        let (h, root, wi) ←
          (if wn.color = RBColor.red then do
            let h ← setColor h wi .black
            let h ← setColor h pi .red
            let (h, root) ← left_rotate h root pi
            let (_, pn2) ← derefN h (some pi)
            let (wi2, _) ← derefN h pn2.right
            pure (h, root, wi2)
          else pure (h, root, wi))
        let (_, wn1) ← derefN h (some wi)
        let lb ← nilOrBlack h wn1.left
        let rb ← nilOrBlack h wn1.right
        if lb ∧ rb then do
          let h ← setColor h wi .red
          let (_, pn3) ← derefN h (some pi)
          delete_fixup fuel h root (some pi) pn3.parent
        else do
          let (h, root, wi) ←
            (if rb then do
              let (_, wn2) ← derefN h (some wi)
              let h ← (match wn2.left with
                | some li => setColor h li .black
                | none => pure h)
              let h ← setColor h wi .red
              let (h, root) ← right_rotate h root wi
              let (_, pn4) ← derefN h (some pi)
              let (wi3, _) ← derefN h pn4.right
              pure (h, root, wi3)
            else pure (h, root, wi))
          let (_, pn5) ← derefN h (some pi)
          let h ← setColor h wi pn5.color
          let h ← setColor h pi .black
          let (_, wn3) ← derefN h (some wi)
          let h ← (match wn3.right with
            | some ri => setColor h ri .black
            | none => pure h)
          let (h, root) ← left_rotate h root pi
          match root with
          | none => pure (h, root)
          | some ri => do
            let h ← setColor h ri .black
            pure (h, root)
      else do
        let (wi, wn) ← derefN h pn.left
        let (h, root, wi) ←
          (if wn.color = RBColor.red then do
            let h ← setColor h wi .black
            let h ← setColor h pi .red
            let (h, root) ← right_rotate h root pi
            let (_, pn2) ← derefN h (some pi)
            let (wi2, _) ← derefN h pn2.left
            pure (h, root, wi2)
          else pure (h, root, wi))
        let (_, wn1) ← derefN h (some wi)
        let rb ← nilOrBlack h wn1.right
        let lb ← nilOrBlack h wn1.left
        if rb ∧ lb then do
          let h ← setColor h wi .red
          let (_, pn3) ← derefN h (some pi)
          delete_fixup fuel h root (some pi) pn3.parent
        else do
          let (h, root, wi) ←
            (if lb then do
              let (_, wn2) ← derefN h (some wi)
              let h ← (match wn2.right with
                | some ri => setColor h ri .black
                | none => pure h)
              let h ← setColor h wi .red
              let (h, root) ← left_rotate h root wi
              let (_, pn4) ← derefN h (some pi)
              let (wi3, _) ← derefN h pn4.left
              pure (h, root, wi3)
            else pure (h, root, wi))
          let (_, pn5) ← derefN h (some pi)
          let h ← setColor h wi pn5.color
          let h ← setColor h pi .black
          let (_, wn3) ← derefN h (some wi)
          let h ← (match wn3.left with
            | some li => setColor h li .black
            | none => pure h)
          let (h, root) ← right_rotate h root pi
          match root with
          | none => pure (h, root)
          | some ri => do
            let h ← setColor h ri .black
            pure (h, root)

/-- The search loop of `limdy_rbtree_remove` (rbtree.c lines 312-327):
find a node whose key (`pool->total_size`) equals the argument's. -/
def rb_search (h : RBHeap) (key : Nat) : Nat → Option Nat → Except PoolError (Option Nat)
  | 0, _ => .error .corruption
  | _ + 1, none => pure none
  | fuel + 1, some i => do
    let (_, n) ← derefN h (some i)
    if key = n.key then pure (some i)
    else if key < n.key then rb_search h key fuel n.left
    else rb_search h key fuel n.right

/-- `limdy_rbtree_remove` (rbtree.c lines 307-382).  A missing key logs
`INVALID_POOL` and leaves the tree unchanged.  Otherwise the CLRS unlink
runs; when the removed position was black, `delete_fixup` is called with
`x` and the source's parent argument `(x == NULL) ? y->parent : x->parent`
(line 375), both read from the post-transplant heap; finally the unlinked
node is freed. -/
def limdy_rbtree_remove (h : RBHeap) (root : Option Nat) (key : Nat) :
    Except PoolError (RBHeap × Option Nat) := do
  match ← rb_search h key (h.length + 1) root with
  | none => pure (h, root)
  | some zi => do
    let (_, z) ← derefN h (some zi)
    if z.left = none then do
      let x := z.right
      let (h, root) ← transplant h root zi z.right
      if z.color = RBColor.black then do
        let parent ← (match x with
          | none => do
            let (_, z1) ← derefN h (some zi)
            pure z1.parent
          | some xi => do
            let (_, xn) ← derefN h (some xi)
            pure xn.parent)
        let (h, root) ← delete_fixup (4 * h.length + 16) h root x parent
        pure (hrem h zi, root)
      else pure (hrem h zi, root)
    else if z.right = none then do
      let x := z.left
      let (h, root) ← transplant h root zi z.left
      if z.color = RBColor.black then do
        let parent ← (match x with
          | none => do
            let (_, z1) ← derefN h (some zi)
            pure z1.parent
          | some xi => do
            let (_, xn) ← derefN h (some xi)
            pure xn.parent)
        let (h, root) ← delete_fixup (4 * h.length + 16) h root x parent
        pure (hrem h zi, root)
      else pure (hrem h zi, root)
    else do
      match z.right with
      | none => .error .corruption
      | some zri => do
        let yi ← tree_minimum h (h.length + 1) zri
        let (_, y) ← derefN h (some yi)
        let yOrig := y.color
        let x := y.right
        let (h, root) ←
          (if y.parent = some zi then do
            let h ← (match x with
              | some xi => do
                let (_, xn) ← derefN h (some xi)
                pure (hset h xi { xn with parent := some yi })
              | none => pure h)
            pure (h, root)
          else do
            let (h, root) ← transplant h root yi x
            let (_, y1) ← derefN h (some yi)
            let h := hset h yi { y1 with right := z.right }
            let (zri2, zrn) ← derefN h z.right
            let h := hset h zri2 { zrn with parent := some yi }
            pure (h, root))
        let (h, root) ← transplant h root zi (some yi)
        let (_, y2) ← derefN h (some yi)
        let h := hset h yi { y2 with left := z.left, color := z.color }
        let (zli, zln) ← derefN h z.left
        let h := hset h zli { zln with parent := some yi }
        if yOrig = RBColor.black then do
          let parent ← (match x with
            | none => do
              let (_, y3) ← derefN h (some yi)
              pure y3.parent
            | some xi => do
              let (_, xn2) ← derefN h (some xi)
              pure xn2.parent)
          let (h, root) ← delete_fixup (4 * h.length + 16) h root x parent
          pure (hrem h zi, root)
        else pure (hrem h zi, root)

/-- Root-is-black property. -/
def rootIsBlack (h : RBHeap) : Option Nat → Bool
  | none => true
  | some i =>
    match hget h i with
    | some n => n.color == RBColor.black
    | none => false

/-- Whether a child pointer designates a red node. -/
def childIsRed (h : RBHeap) (o : Option Nat) : Bool :=
  match o with
  | none => false
  | some i =>
    match hget h i with
    | some n => n.color == RBColor.red
    | none => false

/-- No red node has a red child (fuel-indexed traversal). -/
def noRedRed (h : RBHeap) : Nat → Option Nat → Bool
  | 0, _ => false
  | _ + 1, none => true
  | fuel + 1, some i =>
    match hget h i with
    | none => false
    | some n =>
      !(n.color == RBColor.red && (childIsRed h n.left || childIsRed h n.right)) &&
      noRedRed h fuel n.left && noRedRed h fuel n.right

/-- Black height of a subtree when every root-to-NIL path has the same
black-node count, `none` otherwise (fuel-indexed). -/
def blackHeight (h : RBHeap) : Nat → Option Nat → Option Nat
  | 0, _ => none
  | _ + 1, none => some 1
  | fuel + 1, some i =>
    match hget h i with
    | none => none
    | some n =>
      match blackHeight h fuel n.left, blackHeight h fuel n.right with
      | some a, some b =>
        if a = b then some (a + (if n.color == RBColor.black then 1 else 0)) else none
      | _, _ => none

/-- The three red-black properties validated by the debug build
(rbtree.c lines 428-491, spec §4.4): black root, no red-red edge, equal
black count on every root-to-NIL path. -/
def rbValid (h : RBHeap) (root : Option Nat) : Bool :=
  rootIsBlack h root && noRedRed h (h.length + 1) root &&
  (blackHeight h (h.length + 1) root).isSome

/-! ## Concrete allocator states used by the counterexamples and witnesses

`ALIGNED_ALLOC` gives each arena a 16-byte-aligned base address; the
addresses below are model choices for those allocations.  `gA` is the state
after `init` with `max_pools = 1` (one small pool, indexed) at a typical
mmap-region base address; `gB` is the state after `init` with
`max_pools = 0` (only the large pool, empty index). -/

/-- A small pool of 1 MiB whose arena was placed at address `2^30`. -/
def poolA : LimdyMemoryPool := create_pool 1073741824 1048576

/-- The large pool (10 MiB) at address `2^31`. -/
def largeA : LimdyMemoryPool := create_pool 2147483648 10485760

/-- Post-`init` global state: one small pool, inserted in the index
(a single inserted node is the black root). -/
def gA : GlobalState :=
  { small_pools := [poolA]
    large_pool := largeA
    pool_rbtree := .node .nil ⟨0, 1048576⟩ .nil
    slab := init_slab_allocator
    slab_objects_per_slab := 64
    sys_next := 4294967296
    events := [] }

/-- `gA` after `alloc(256)` was served from the small pool: the pointer
`2^30 + 40` is live, `used_size = 296`. -/
def gA1 : GlobalState :=
  { small_pools := [{ base := 1073741824, total_size := 1048576, used_size := 296
                      blocks := [{ magic := MEMORY_BLOCK_MAGIC, size := 256, in_use := true },
                                 { magic := MEMORY_BLOCK_MAGIC, size := 1048240, in_use := false }] }]
    large_pool := largeA
    pool_rbtree := .node .nil ⟨0, 1048576⟩ .nil
    slab := init_slab_allocator
    slab_objects_per_slab := 64
    sys_next := 4294967296
    events := [] }

/-- Post-`init` global state with `max_pools = 0`: only the large pool
(4096 bytes at address 4096), empty pool index. -/
def gB : GlobalState :=
  { small_pools := []
    large_pool := create_pool 4096 4096
    pool_rbtree := .nil
    slab := init_slab_allocator
    slab_objects_per_slab := 64
    sys_next := 4294967296
    events := [] }

/-- `gB` after `p = alloc(512)` (served at address 4136). -/
def gB1 : GlobalState :=
  { gB with large_pool :=
      { base := 4096, total_size := 4096, used_size := 552
        blocks := [{ magic := MEMORY_BLOCK_MAGIC, size := 512, in_use := true },
                   { magic := MEMORY_BLOCK_MAGIC, size := 3504, in_use := false }] } }

/-- `gB1` after `realloc(4136, 256)`: a fresh 256-byte block at 4688 was
allocated, 512 bytes were copied, the old block was freed. -/
def gB2 : GlobalState :=
  { gB with
    large_pool :=
      { base := 4096, total_size := 4096, used_size := 296
        blocks := [{ magic := MEMORY_BLOCK_MAGIC, size := 512, in_use := false },
                   { magic := MEMORY_BLOCK_MAGIC, size := 256, in_use := true },
                   { magic := MEMORY_BLOCK_MAGIC, size := 3208, in_use := false }] }
    events := [Event.copy 4688 4136 512] }

/-- `gB` after `a = alloc(256)` (served at 4136). -/
def gC1 : GlobalState :=
  { gB with large_pool :=
      { base := 4096, total_size := 4096, used_size := 296
        blocks := [{ magic := MEMORY_BLOCK_MAGIC, size := 256, in_use := true },
                   { magic := MEMORY_BLOCK_MAGIC, size := 3760, in_use := false }] } }

/-- `gC1` after `b = alloc(256)` (served at 4432). -/
def gC2 : GlobalState :=
  { gB with large_pool :=
      { base := 4096, total_size := 4096, used_size := 592
        blocks := [{ magic := MEMORY_BLOCK_MAGIC, size := 256, in_use := true },
                   { magic := MEMORY_BLOCK_MAGIC, size := 256, in_use := true },
                   { magic := MEMORY_BLOCK_MAGIC, size := 3464, in_use := false }] } }

/-- `gC1` after the in-place `realloc(4136, 512)`: the block grew to 512
bytes but `used_size` still reads 296. -/
def gC4 : GlobalState :=
  { gB with large_pool :=
      { base := 4096, total_size := 4096, used_size := 296
        blocks := [{ magic := MEMORY_BLOCK_MAGIC, size := 512, in_use := true },
                   { magic := MEMORY_BLOCK_MAGIC, size := 3504, in_use := false }] } }

/-- A fresh pool of 4096 bytes whose arena is at the 16-aligned address 1024. -/
def poolD : LimdyMemoryPool := create_pool 1024 4096

/-- A valid red-black tree of three black nodes keyed 1, 2, 3
(root 2), in the pointer-level node store. -/
def heap3 : RBHeap :=
  [ (1, { key := 1, color := .black, parent := some 2, left := none, right := none }),
    (2, { key := 2, color := .black, parent := none, left := some 1, right := some 3 }),
    (3, { key := 3, color := .black, parent := some 2, left := none, right := none }) ]

/-- State for the realloc-after-free law: the large pool's single block is
free again after `p = alloc(256); free(p)` coalesced it back; the stale
pointer 4136 still designates a header with a valid magic. -/
def gW : GlobalState :=
  { small_pools := []
    large_pool := { base := 4096, total_size := 4096, used_size := 0
                    blocks := [{ magic := MEMORY_BLOCK_MAGIC, size := 4056, in_use := false }] }
    pool_rbtree := .nil
    slab := init_slab_allocator
    slab_objects_per_slab := 64
    sys_next := 4294967296
    events := [] }

/-- An ordered pool index with capacities 100, 200, 300. -/
def tW : PoolTree :=
  .node (.node .nil ⟨0, 100⟩ .nil) ⟨1, 200⟩ (.node .nil ⟨2, 300⟩ .nil)

/-- A two-block list (one allocation, one trailing free block). -/
def bs0 : List MemoryBlock :=
  [{ magic := MEMORY_BLOCK_MAGIC, size := 16, in_use := true },
   { magic := MEMORY_BLOCK_MAGIC, size := 16, in_use := false }]

/-! ## Theorems -/

theorem allRefs_mem {f : PoolRef → Bool} : ∀ {t : PoolTree}, PoolTree.allRefs f t = true →
    ∀ {q : PoolRef}, PoolTree.Mem q t → f q = true
  | .nil, _, q, hq => absurd hq (by simp [PoolTree.Mem])
  | .node l ref r, h, q, hq => by
    simp only [PoolTree.allRefs, Bool.and_eq_true] at h
    simp only [PoolTree.Mem] at hq
    rcases hq with rfl | hq | hq
    · exact h.1.1
    · exact allRefs_mem h.1.2 hq
    · exact allRefs_mem h.2 hq

theorem find_best_fit_none : ∀ (t : PoolTree) (size : Nat), t.ordered = true →
    (limdy_rbtree_find_best_fit t size = none ↔
      ∀ q, PoolTree.Mem q t → q.total_size < size)
  | .nil, size, _ => by simp [limdy_rbtree_find_best_fit, PoolTree.Mem]
  | .node l ref r, size, ht => by
    simp only [PoolTree.ordered, Bool.and_eq_true] at ht
    obtain ⟨⟨⟨hla, hra⟩, hlo⟩, hro⟩ := ht
    by_cases hs : size ≤ ref.total_size
    · constructor
      · intro h
        exfalso
        simp only [limdy_rbtree_find_best_fit, if_pos hs] at h
        cases hfl : limdy_rbtree_find_best_fit l size <;> simp [hfl] at h
      · intro h
        have := h ref (by simp [PoolTree.Mem])
        omega
    · simp only [limdy_rbtree_find_best_fit, if_neg hs]
      rw [find_best_fit_none r size hro]
      constructor
      · intro h q hq
        simp only [PoolTree.Mem] at hq
        rcases hq with rfl | hq | hq
        · omega
        · have := of_decide_eq_true (allRefs_mem hla hq)
          omega
        · exact h q hq
      · intro h q hq
        exact h q (by simp [PoolTree.Mem, hq])

theorem find_best_fit_some : ∀ (t : PoolTree) (size : Nat), t.ordered = true →
    ∀ p, limdy_rbtree_find_best_fit t size = some p →
      PoolTree.Mem p t ∧ size ≤ p.total_size ∧
        ∀ q, PoolTree.Mem q t → size ≤ q.total_size → p.total_size ≤ q.total_size
  | .nil, size, _, p, hp => by simp [limdy_rbtree_find_best_fit] at hp
  | .node l ref r, size, ht, p, hp => by
    simp only [PoolTree.ordered, Bool.and_eq_true] at ht
    obtain ⟨⟨⟨hla, hra⟩, hlo⟩, hro⟩ := ht
    by_cases hs : size ≤ ref.total_size
    · simp only [limdy_rbtree_find_best_fit, if_pos hs] at hp
      cases hfl : limdy_rbtree_find_best_fit l size with
      | some q =>
        rw [hfl] at hp
        have hqp : q = p := by simpa using hp
        subst hqp
        obtain ⟨hm, hsz, hmin⟩ := find_best_fit_some l size hlo q hfl
        refine ⟨by simp [PoolTree.Mem, hm], hsz, ?_⟩
        intro x hx hxs
        simp only [PoolTree.Mem] at hx
        rcases hx with rfl | hx | hx
        · exact of_decide_eq_true (allRefs_mem hla hm)
        · exact hmin x hx hxs
        · have h1 : ref.total_size ≤ x.total_size := of_decide_eq_true (allRefs_mem hra hx)
          have h2 : q.total_size ≤ ref.total_size := of_decide_eq_true (allRefs_mem hla hm)
          omega
      | none =>
        rw [hfl] at hp
        have hrp : ref = p := by simpa using hp
        subst hrp
        refine ⟨by simp [PoolTree.Mem], hs, ?_⟩
        intro x hx hxs
        simp only [PoolTree.Mem] at hx
        rcases hx with rfl | hx | hx
        · exact le_refl _
        · have := (find_best_fit_none l size hlo).mp hfl x hx
          omega
        · exact of_decide_eq_true (allRefs_mem hra hx)
    · simp only [limdy_rbtree_find_best_fit, if_neg hs] at hp
      obtain ⟨hm, hsz, hmin⟩ := find_best_fit_some r size hro p hp
      refine ⟨by simp [PoolTree.Mem, hm], hsz, ?_⟩
      intro x hx hxs
      simp only [PoolTree.Mem] at hx
      rcases hx with rfl | hx | hx
      · omega
      · have := of_decide_eq_true (allRefs_mem hla hx)
        omega
      · exact hmin x hx hxs

/-- C8: on every search tree ordered by `pool.total_size`,
`limdy_rbtree_find_best_fit` returns a pool of the tree with the smallest
`total_size` that is at least the requested size, and returns NULL exactly
when no pool in the tree is large enough. -/
theorem limdy_rbtree_find_best_fit_correct (t : PoolTree) (size : Nat)
    (ht : t.ordered = true) :
    (∀ p, limdy_rbtree_find_best_fit t size = some p →
      PoolTree.Mem p t ∧ size ≤ p.total_size ∧
        ∀ q, PoolTree.Mem q t → size ≤ q.total_size → p.total_size ≤ q.total_size) ∧
    (limdy_rbtree_find_best_fit t size = none ↔
      ∀ q, PoolTree.Mem q t → q.total_size < size) :=
  ⟨find_best_fit_some t size ht, find_best_fit_none t size ht⟩

/-- Witness for C8: on the ordered index `tW` (capacities 100, 200, 300) the
request 80 selects the 100-capacity pool, and that choice is minimal. -/
theorem limdy_rbtree_find_best_fit_correct_witness :
    PoolTree.Mem (⟨0, 100⟩ : PoolRef) tW ∧ 80 ≤ (⟨0, 100⟩ : PoolRef).total_size ∧
      ∀ q, PoolTree.Mem q tW → 80 ≤ q.total_size →
        (⟨0, 100⟩ : PoolRef).total_size ≤ q.total_size :=
  (limdy_rbtree_find_best_fit_correct tW 80 (by decide)).1 ⟨0, 100⟩ rfl

theorem noAdjFree_cons_cons {b n : MemoryBlock} {l : List MemoryBlock} :
    noAdjFree (b :: n :: l) = true ↔
      (b.in_use = true ∨ n.in_use = true) ∧ noAdjFree (n :: l) = true := by
  simp [noAdjFree]

theorem noAdjFree_tail : ∀ {b : MemoryBlock} {l : List MemoryBlock},
    noAdjFree (b :: l) = true → noAdjFree l = true
  | _, [], _ => rfl
  | _, _ :: _, h => (noAdjFree_cons_cons.mp h).2

theorem mergeRight_head (b : MemoryBlock) (l : List MemoryBlock) :
    ∃ y ys, mergeRight b l = y :: ys ∧ y.in_use = b.in_use := by
  cases l with
  | nil => exact ⟨b, [], rfl, rfl⟩
  | cons n rest =>
    by_cases hn : n.in_use = false
    · exact ⟨{ b with size := b.size + HDR + n.size }, rest, by simp [mergeRight, hn], rfl⟩
    · exact ⟨b, n :: rest, by simp [mergeRight, hn], rfl⟩

theorem mergeRight_noAdjFree (b : MemoryBlock) {l : List MemoryBlock}
    (hl : noAdjFree l = true) : noAdjFree (mergeRight b l) = true := by
  cases l with
  | nil => rfl
  | cons n rest =>
    by_cases hn : n.in_use = false
    · simp only [mergeRight, if_pos hn]
      cases rest with
      | nil => rfl
      | cons m rest2 =>
        rw [noAdjFree_cons_cons] at hl ⊢
        rcases hl.1 with h1 | h1
        · exact absurd h1 (by simp [hn])
        · exact ⟨Or.inr h1, hl.2⟩
    · simp only [mergeRight, if_neg hn]
      rw [noAdjFree_cons_cons]
      exact ⟨Or.inr (by simpa using hn), hl⟩

theorem allocBlocks_head (size : Nat) (x : MemoryBlock) (xs : List MemoryBlock)
    {i ssz : Nat} {l : List MemoryBlock}
    (h : allocBlocks size (x :: xs) = .ok (some (i, ssz, l))) :
    ∃ y ys, l = y :: ys ∧ (y.in_use = false → x.in_use = false) := by
  simp only [allocBlocks] at h
  by_cases hm : x.magic ≠ MEMORY_BLOCK_MAGIC
  · rw [if_pos hm] at h
    exact absurd h (by simp)
  · rw [if_neg hm] at h
    by_cases hc : x.in_use = false ∧ size ≤ x.size
    · rw [if_pos hc] at h
      by_cases hsp : size + MIN_BLOCK_SIZE ≤ x.size
      · rw [if_pos hsp] at h
        obtain ⟨-, -, hl⟩ : i = 0 ∧ ssz = size ∧ l = _ := by simpa using h.symm
        exact ⟨_, _, hl, by simp⟩
      · rw [if_neg hsp] at h
        obtain ⟨-, -, hl⟩ : i = 0 ∧ ssz = x.size ∧ l = _ := by simpa using h.symm
        exact ⟨_, _, hl, by simp⟩
    · rw [if_neg hc] at h
      cases har : allocBlocks size xs with
      | error e => rw [har] at h; exact absurd h (by simp)
      | ok o =>
        cases o with
        | none => rw [har] at h; exact absurd h (by simp)
        | some t =>
          obtain ⟨i2, ssz2, l2⟩ := t
          rw [har] at h
          obtain ⟨-, -, hl⟩ : i = i2 + 1 ∧ ssz = ssz2 ∧ l = x :: l2 := by simpa using h.symm
          exact ⟨x, l2, hl, fun hx => hx⟩

theorem allocBlocks_noAdjFree : ∀ (size : Nat) (bs : List MemoryBlock),
    noAdjFree bs = true → ∀ {i ssz : Nat} {bs2 : List MemoryBlock},
    allocBlocks size bs = .ok (some (i, ssz, bs2)) → noAdjFree bs2 = true
  | size, [], _, _, _, _, he => by simp [allocBlocks] at he
  | size, b :: rest, h, i, ssz, bs2, he => by
    simp only [allocBlocks] at he
    by_cases hm : b.magic ≠ MEMORY_BLOCK_MAGIC
    · rw [if_pos hm] at he
      exact absurd he (by simp)
    · rw [if_neg hm] at he
      by_cases hc : b.in_use = false ∧ size ≤ b.size
      · rw [if_pos hc] at he
        by_cases hsp : size + MIN_BLOCK_SIZE ≤ b.size
        · rw [if_pos hsp] at he
          obtain ⟨-, -, hl⟩ : i = 0 ∧ ssz = size ∧ bs2 = _ := by simpa using he.symm
          subst hl
          rw [noAdjFree_cons_cons]
          refine ⟨Or.inl rfl, ?_⟩
          cases rest with
          | nil => rfl
          | cons m rest2 =>
            rw [noAdjFree_cons_cons] at h ⊢
            rcases h.1 with h1 | h1
            · exact absurd h1 (by simp [hc.1])
            · exact ⟨Or.inr h1, h.2⟩
        · rw [if_neg hsp] at he
          obtain ⟨-, -, hl⟩ : i = 0 ∧ ssz = b.size ∧ bs2 = _ := by simpa using he.symm
          subst hl
          cases rest with
          | nil => rfl
          | cons m rest2 =>
            rw [noAdjFree_cons_cons] at h ⊢
            exact ⟨Or.inl rfl, h.2⟩
      · rw [if_neg hc] at he
        cases har : allocBlocks size rest with
        | error e => rw [har] at he; exact absurd he (by simp)
        | ok o =>
          cases o with
          | none => rw [har] at he; exact absurd he (by simp)
          | some t =>
            obtain ⟨i2, ssz2, l2⟩ := t
            rw [har] at he
            obtain ⟨-, -, hl⟩ : i = i2 + 1 ∧ ssz = ssz2 ∧ bs2 = b :: l2 := by simpa using he.symm
            have hrec := allocBlocks_noAdjFree size rest (noAdjFree_tail h) har
            subst hl
            cases rest with
            | nil => simp [allocBlocks] at har
            | cons x xs =>
              obtain ⟨y, ys, hys, hyx⟩ := allocBlocks_head size x xs har
              rw [hys, noAdjFree_cons_cons]
              refine ⟨?_, by rw [← hys]; exact hrec⟩
              by_cases hb : b.in_use = false
              · right
                rw [noAdjFree_cons_cons] at h
                rcases h.1 with h1 | h1
                · exact absurd h1 (by simp [hb])
                · cases hy : y.in_use with
                  | true => rfl
                  | false => exact absurd (hyx hy) (by simp [h1])
              · exact Or.inl (by simpa using hb)

theorem freeBlocks_head (x : MemoryBlock) (xs : List MemoryBlock) (i : Nat) :
    ∃ y ys, freeBlocks (x :: xs) (i + 1) = y :: ys ∧ y.in_use = x.in_use := by
  cases xs with
  | nil => exact ⟨x, [], by simp [freeBlocks], rfl⟩
  | cons n rest =>
    cases i with
    | zero =>
      by_cases hx : x.in_use = false
      · obtain ⟨y, ys, hm, hy⟩ := mergeRight_head { x with size := x.size + HDR + n.size } rest
        refine ⟨y, ys, ?_, hy⟩
        simp only [freeBlocks]
        rw [if_pos hx]
        exact hm
      · refine ⟨x, mergeRight { n with in_use := false } rest, ?_, rfl⟩
        simp only [freeBlocks]
        rw [if_neg hx]
    | succ j =>
      exact ⟨x, freeBlocks (n :: rest) (j + 1), by simp [freeBlocks], rfl⟩

theorem freeBlocks_noAdjFree : ∀ (bs : List MemoryBlock), noAdjFree bs = true →
    ∀ (i : Nat), noAdjFree (freeBlocks bs i) = true
  | [], _, i => by cases i <;> rfl
  | b :: rest, h, 0 => by
    simp only [freeBlocks]
    exact mergeRight_noAdjFree _ (noAdjFree_tail h)
  | b :: n :: rest, h, 1 => by
    simp only [freeBlocks]
    by_cases hb : b.in_use = false
    · rw [if_pos hb]
      exact mergeRight_noAdjFree _ (noAdjFree_tail (noAdjFree_tail h))
    · rw [if_neg hb]
      obtain ⟨y, ys, hm, hy⟩ := mergeRight_head { n with in_use := false } rest
      rw [hm, noAdjFree_cons_cons]
      refine ⟨Or.inl (by simpa using hb), ?_⟩
      rw [← hm]
      exact mergeRight_noAdjFree _ (noAdjFree_tail (noAdjFree_tail h))
  | [b], h, i + 1 => by
    simp only [freeBlocks]
    rfl
  | b :: n :: rest, h, i + 2 => by
    simp only [freeBlocks]
    obtain ⟨y, ys, hf, hy⟩ := freeBlocks_head n rest i
    rw [hf, noAdjFree_cons_cons]
    constructor
    · by_cases hb : b.in_use = false
      · right
        rw [noAdjFree_cons_cons] at h
        rcases h.1 with h1 | h1
        · exact absurd h1 (by simp [hb])
        · rw [hy]; exact h1
      · exact Or.inl (by simpa using hb)
    · rw [← hf]
      exact freeBlocks_noAdjFree (n :: rest) (noAdjFree_tail h) (i + 1)

theorem extendBlocks_head (x : MemoryBlock) (xs : List MemoryBlock) (i ns : Nat) :
    ∃ y ys, extendBlocks (x :: xs) i ns = y :: ys ∧ y.in_use = x.in_use := by
  cases i with
  | zero =>
    cases xs with
    | nil => exact ⟨x, [], by simp [extendBlocks], rfl⟩
    | cons n rest =>
      by_cases hsp : MIN_BLOCK_SIZE ≤ x.size + HDR + n.size - ns
      · refine ⟨{ x with size := ns },
          { magic := MEMORY_BLOCK_MAGIC, size := x.size + HDR + n.size - ns - HDR,
            in_use := false } :: rest, ?_, rfl⟩
        simp only [extendBlocks]
        rw [if_pos hsp]
      · refine ⟨{ x with size := x.size + HDR + n.size }, rest, ?_, rfl⟩
        simp only [extendBlocks]
        rw [if_neg hsp]
  | succ j => exact ⟨x, extendBlocks xs j ns, by simp [extendBlocks], rfl⟩

theorem extendBlocks_noAdjFree : ∀ (bs : List MemoryBlock), noAdjFree bs = true →
    ∀ (i ns : Nat) (b nb : MemoryBlock), bs.get? i = some b → b.in_use = true →
      bs.get? (i + 1) = some nb → nb.in_use = false →
      noAdjFree (extendBlocks bs i ns) = true
  | [], _, i, ns, b, nb, hb, _, _, _ => by simp at hb
  | x :: xs, h, 0, ns, b, nb, hb, hbu, hnb, hnbu => by
    have hxb : x = b := by simpa using hb
    cases xs with
    | nil => simp at hnb
    | cons n rest =>
      have hnnb : n = nb := by simpa using hnb
      simp only [extendBlocks]
      by_cases hsp : MIN_BLOCK_SIZE ≤ x.size + HDR + n.size - ns
      · rw [if_pos hsp, noAdjFree_cons_cons]
        refine ⟨Or.inl (by simp [hxb, hbu]), ?_⟩
        cases rest with
        | nil => rfl
        | cons m rest2 =>
          rw [noAdjFree_cons_cons]
          have h2 := noAdjFree_tail h
          rw [noAdjFree_cons_cons] at h2
          rcases h2.1 with h1 | h1
          · exact absurd h1 (by simp [hnnb, hnbu])
          · exact ⟨Or.inr h1, h2.2⟩
      · rw [if_neg hsp]
        cases rest with
        | nil => rfl
        | cons m rest2 =>
          rw [noAdjFree_cons_cons]
          exact ⟨Or.inl (by simp [hxb, hbu]), noAdjFree_tail (noAdjFree_tail h)⟩
  | x :: xs, h, i + 1, ns, b, nb, hb, hbu, hnb, hnbu => by
    simp only [extendBlocks]
    have hxs : xs.get? i = some b := by simpa using hb
    have hxs2 : xs.get? (i + 1) = some nb := by simpa using hnb
    cases xs with
    | nil => simp at hxs
    | cons n rest =>
      obtain ⟨y, ys, he, hy⟩ := extendBlocks_head n rest i ns
      rw [he, noAdjFree_cons_cons]
      constructor
      · by_cases hx : x.in_use = false
        · right
          rw [noAdjFree_cons_cons] at h
          rcases h.1 with h1 | h1
          · exact absurd h1 (by simp [hx])
          · rw [hy]; exact h1
        · exact Or.inl (by simpa using hx)
      · rw [← he]
        exact extendBlocks_noAdjFree (n :: rest) (noAdjFree_tail h) i ns b nb hxs hbu hxs2 hnbu

theorem defragLoop_head : ∀ (fuel : Nat) (x : MemoryBlock) (xs : List MemoryBlock),
    ∃ y ys, defragLoop fuel (x :: xs) = y :: ys ∧ y.in_use = x.in_use
  | 0, x, xs => ⟨x, xs, rfl, rfl⟩
  | _ + 1, x, [] => ⟨x, [], by simp [defragLoop], rfl⟩
  | fuel + 1, x, n :: rest => by
    by_cases hc : x.in_use = false ∧ n.in_use = false
    · obtain ⟨y, ys, hd, hy⟩ := defragLoop_head fuel { x with size := x.size + HDR + n.size } rest
      refine ⟨y, ys, ?_, hy⟩
      simp only [defragLoop]
      rw [if_pos hc]
      exact hd
    · refine ⟨x, defragLoop fuel (n :: rest), ?_, rfl⟩
      simp only [defragLoop]
      rw [if_neg hc]

theorem defragLoop_noAdjFree : ∀ (fuel : Nat) (l : List MemoryBlock),
    l.length ≤ fuel → noAdjFree (defragLoop fuel l) = true
  | 0, l, h => by
    obtain rfl : l = [] := List.eq_nil_of_length_eq_zero (Nat.le_zero.mp h)
    rfl
  | _ + 1, [], _ => by
    simp only [defragLoop]
    rfl
  | _ + 1, [b], _ => by
    simp only [defragLoop]
    rfl
  | fuel + 1, b :: n :: rest, h => by
    simp only [defragLoop]
    by_cases hc : b.in_use = false ∧ n.in_use = false
    · rw [if_pos hc]
      refine defragLoop_noAdjFree fuel _ ?_
      simp only [List.length_cons] at h ⊢
      omega
    · rw [if_neg hc]
      obtain ⟨y, ys, hd, hy⟩ := defragLoop_head fuel n rest
      rw [hd, noAdjFree_cons_cons]
      constructor
      · by_cases hb : b.in_use = false
        · right
          rw [hy]
          rcases Bool.eq_false_or_eq_true n.in_use with h1 | h1
          · exact h1
          · exact absurd ⟨hb, h1⟩ hc
        · exact Or.inl (by simpa using hb)
      · rw [← hd]
        refine defragLoop_noAdjFree fuel (n :: rest) ?_
        simp only [List.length_cons] at h ⊢
        omega

/-- C7: the coalescing invariant (no two address-adjacent blocks both free)
is preserved by the block-list transformations of `allocate_from_pool`
(`allocBlocks`, including the split), of `limdy_memory_pool_free` /
`limdy_memory_pool_free_to` (`freeBlocks`, which merges with the free
immediate predecessor and then the free immediate successor), and of the
in-place extension of `realloc_from_pool` (`extendBlocks`, on an in-use
block with a free successor, the condition of that path); the
`limdy_memory_pool_defragment` sweep (`defragLoop`) establishes it
outright. -/
theorem coalescing_invariant_preserved (bs : List MemoryBlock)
    (hinv : noAdjFree bs = true) :
    (∀ size i ssz bs2, allocBlocks size bs = .ok (some (i, ssz, bs2)) →
      noAdjFree bs2 = true) ∧
    (∀ i, noAdjFree (freeBlocks bs i) = true) ∧
    (∀ i ns b nb, bs.get? i = some b → b.in_use = true →
      bs.get? (i + 1) = some nb → nb.in_use = false →
      noAdjFree (extendBlocks bs i ns) = true) ∧
    noAdjFree (defragLoop bs.length bs) = true :=
  ⟨fun size _ _ _ he => allocBlocks_noAdjFree size bs hinv he,
   fun i => freeBlocks_noAdjFree bs hinv i,
   fun i ns b nb hb hbu hnb hnbu =>
     extendBlocks_noAdjFree bs hinv i ns b nb hb hbu hnb hnbu,
   defragLoop_noAdjFree bs.length bs (le_refl _)⟩

/-- Witness for C7, at the two-block list `bs0` (an allocation followed by
the trailing free block): freeing block 0 and defragmenting both give lists
with no adjacent free blocks. -/
theorem coalescing_invariant_preserved_witness :
    noAdjFree (freeBlocks bs0 0) = true ∧
    noAdjFree (defragLoop bs0.length bs0) = true :=
  ⟨(coalescing_invariant_preserved bs0 (by decide)).2.1 0,
   (coalescing_invariant_preserved bs0 (by decide)).2.2.2⟩


/-- C10: `limdy_memory_pool_realloc` (and `limdy_memory_pool_realloc_from`)
applied to a pointer whose block header carries a valid magic but
`in_use == 0` returns NULL after logging `INVALID_FREE`, leaving every
pool's block list and `used_size` unchanged (only the log grows), and that
error is recoverable — whereas a second `free` of the same pointer trips the
`assert(block->in_use)`, which is fatal. -/
theorem realloc_after_free_is_recoverable
    (g : GlobalState) (p ns : Nat) (pp : PoolPtr) (i : Nat) (b : MemoryBlock)
    (hp : p ≠ 0) (hns : ns ≠ 0)
    (hslab : slabHit g p = none)
    (hfind : find_pool g p = some pp)
    (hcont : limdy_memory_pool_contains (getPoolP g pp) p = true)
    (hidx : blockIndexOf (getPoolP g pp) p = some i)
    (hb : (getPoolP g pp).blocks.get? i = some b)
    (hmagic : b.magic = MEMORY_BLOCK_MAGIC)
    (huse : b.in_use = false) :
    limdy_memory_pool_realloc g p ns = .ok (none, logEvent g .invalidFree) ∧
    limdy_memory_pool_realloc_from g pp p ns = .ok (none, logEvent g .invalidFree) ∧
    PoolError.isFatal .invalidFree = false ∧
    limdy_memory_pool_free g p = .error .assertFail ∧
    PoolError.isFatal .assertFail = true := by
  have hb2 : (getPoolP g pp).blocks[i]? = some b := by
    rw [← List.get?_eq_getElem?]
    exact hb
  refine ⟨?_, ?_, rfl, ?_, rfl⟩
  · simp only [limdy_memory_pool_realloc, if_neg hp, if_neg hns, hfind, hidx, hb]
    rw [if_neg (by simp [hmagic]), if_pos huse]
  · simp [limdy_memory_pool_realloc_from, if_neg hp, if_neg hns, hcont, hidx, hb2, hmagic, huse]
  · simp only [limdy_memory_pool_free, if_neg hp, hslab, hfind, hidx, hb]
    rw [if_neg (by simp [hmagic]), if_pos huse]

/-- Witness for C10: in `gW` (the state after `p = alloc(256); free(p)`
coalesced the arena back to one free block) the stale pointer 4136 has a
valid header magic and `in_use = 0`; `realloc(4136, 64)` only logs
`INVALID_FREE` and returns NULL, while `free(4136)` is the fatal assert. -/
theorem realloc_after_free_is_recoverable_witness :
    limdy_memory_pool_realloc gW 4136 64 = .ok (none, logEvent gW .invalidFree) ∧
    limdy_memory_pool_realloc_from gW .large 4136 64 = .ok (none, logEvent gW .invalidFree) ∧
    PoolError.isFatal .invalidFree = false ∧
    limdy_memory_pool_free gW 4136 = .error .assertFail ∧
    PoolError.isFatal .assertFail = true :=
  realloc_after_free_is_recoverable gW 4136 64 .large 0
    { magic := MEMORY_BLOCK_MAGIC, size := 4056, in_use := false }
    (by decide) (by decide) (by decide) (by decide) (by decide) (by decide)
    (by decide) rfl rfl

/-- C1 (counterexample evaluation): in `gA1` the pointer
`1073741864 = 2^30 + 40` was returned by `limdy_memory_pool_alloc` from the
live small pool, is contained in that pool, and lies in no slab range; yet
`limdy_memory_pool_free` logs `INVALID_FREE` and returns with no state
change.  `find_pool` passes the pointer value as the *size* argument to the
capacity-keyed best-fit tree; no pool has `total_size ≥ 2^30 + 40`, the
lookup fails, and only the large pool (which does not contain the pointer)
is tried before giving up, so the owning pool is never found and the block
stays `in_use`. -/
theorem free_invalid_free_on_live_pool_pointer :
    limdy_memory_pool_alloc gA 256 = .ok (some 1073741864, gA1) ∧
    limdy_memory_pool_contains (getPoolP gA1 (.small 0)) 1073741864 = true ∧
    slabHit gA1 1073741864 = none ∧
    limdy_memory_pool_free gA1 1073741864 = .ok (logEvent gA1 .invalidFree) :=
  ⟨rfl, rfl, rfl, rfl⟩

/-- C6 (counterexample evaluation): total used is 0 in `gA`; after
`p = alloc(256); free(p)` on the small pool the reported total used is 296,
not 0 — the free could not locate the owning pool (see C1) and the block was
never released. -/
theorem alloc_free_round_trip_used_not_restored :
    (limdy_memory_pool_get_stats gA).2 = 0 ∧
    limdy_memory_pool_alloc gA 256 = .ok (some 1073741864, gA1) ∧
    limdy_memory_pool_free gA1 1073741864 = .ok (logEvent gA1 .invalidFree) ∧
    (limdy_memory_pool_get_stats (logEvent gA1 .invalidFree)).2 = 296 ∧
    (296 : Nat) ≠ 0 :=
  ⟨rfl, rfl, rfl, rfl, by decide⟩

/-- C2 (counterexample evaluation): on the large pool,
`a = alloc(256); b = alloc(256); free(b)` keeps
`used_size = Σ (header + payload) over in-use blocks` (both are 296), but
the in-place `realloc(a, 512)` leaves `used_size = 296` while the sum over
in-use blocks is `40 + 512 = 552`: the source adds
`new_size - block->size` to `used_size` *after* `block->size` has been set
to `new_size` (memory_pool.c lines 433 and 457), so the delta is 0. -/
theorem realloc_in_place_breaks_used_size :
    limdy_memory_pool_alloc gB 256 = .ok (some 4136, gC1) ∧
    limdy_memory_pool_alloc gC1 256 = .ok (some 4432, gC2) ∧
    limdy_memory_pool_free gC2 4432 = .ok gC1 ∧
    gC1.large_pool.used_size = usedSum gC1.large_pool.blocks ∧
    limdy_memory_pool_realloc gC1 4136 512 = .ok (some 4136, gC4) ∧
    gC4.large_pool.used_size = 296 ∧
    usedSum gC4.large_pool.blocks = 552 ∧
    (296 : Nat) ≠ 552 :=
  ⟨rfl, rfl, rfl, rfl, rfl, rfl, rfl, by decide⟩

/-- C3 (counterexample evaluation): shrinking the live 512-byte allocation
at 4136 to 256 bytes goes through the fresh-allocation path, and
`realloc_allocate_and_copy` copies `block->size = 512` bytes — not
`min(512, 256) = 256` — into the fresh 256-byte block (overrunning it). -/
theorem realloc_copies_old_size_not_min :
    limdy_memory_pool_alloc gB 512 = .ok (some 4136, gB1) ∧
    limdy_memory_pool_realloc gB1 4136 256 = .ok (some 4688, gB2) ∧
    gB2.events = [Event.copy 4688 4136 512] ∧
    min 512 (ALIGN_SIZE 256 LIMDY_MEMORY_ALIGNMENT) = 256 ∧
    (512 : Nat) ≠ 256 :=
  ⟨rfl, rfl, rfl, rfl, by decide⟩

/-- C4 (counterexample evaluation): `realloc(p, 256)` on the live 512-byte
allocation `p = 4136` (so the aligned request 256 is ≤ 512) does not return
`p`: the in-place path requires `new_size > block->size`, so the code falls
into allocate-and-copy and returns the fresh pointer 4688, after copying
512 bytes. -/
theorem realloc_shrink_returns_new_pointer :
    ALIGN_SIZE 256 LIMDY_MEMORY_ALIGNMENT ≤ 512 ∧
    limdy_memory_pool_alloc gB 512 = .ok (some 4136, gB1) ∧
    (getPoolP gB1 .large).blocks.get? 0 =
      some { magic := MEMORY_BLOCK_MAGIC, size := 512, in_use := true } ∧
    limdy_memory_pool_realloc gB1 4136 256 = .ok (some 4688, gB2) ∧
    (4688 : Nat) ≠ 4136 ∧
    gB2.events = [Event.copy 4688 4136 512] :=
  ⟨by decide, rfl, rfl, rfl, by decide, rfl⟩

/-- C5 (counterexample evaluation): from the fresh pool `poolD` whose arena
base 1024 is 16-byte aligned, `limdy_memory_pool_alloc_from(pool, 16)`
returns `base + sizeof(struct MemoryBlock) = 1064`, and `1064 % 16 = 8`:
because the 40-byte header is not a multiple of the 16-byte alignment, the
payload of the first (and every second) block is only 8-byte aligned. -/
theorem alloc_from_returns_misaligned_pointer :
    poolD.base % LIMDY_MEMORY_ALIGNMENT = 0 ∧
    limdy_memory_pool_alloc_from poolD 16 =
      .ok (some (1064,
        { base := 1024, total_size := 4096, used_size := 56
          blocks := [{ magic := MEMORY_BLOCK_MAGIC, size := 16, in_use := true },
                     { magic := MEMORY_BLOCK_MAGIC, size := 4000, in_use := false }] })) ∧
    1064 % LIMDY_MEMORY_ALIGNMENT = 8 ∧
    (8 : Nat) ≠ 0 :=
  ⟨rfl, rfl, rfl, by decide⟩

/-- C9 (counterexample evaluation): `heap3` with root 2 satisfies all three
red-black properties, yet `limdy_rbtree_remove` of the root key 2
dereferences a NULL pointer instead of producing a rebalanced tree: the
root has two children, its successor (node 3) is black with no right child,
so `delete_fixup` is called with `x = NULL` and parent
`y->parent` — which, read after `transplant`, is the removed root's old
parent NULL — and the loop immediately reads `parent->left`. -/
theorem rbtree_remove_null_deref_on_valid_tree :
    rbValid heap3 (some 2) = true ∧
    limdy_rbtree_remove heap3 (some 2) 2 = .error .nullDeref :=
  ⟨rfl, rfl⟩
